import Mathlib

/-!
Verification of the AVM1 `SharedObject` core of this repository
(`src/core/src/avm1/globals/shared_object.rs`): the recursive
value-tree <-> JSON document codec (`recursive_serialize`,
`recursive_deserialize`), the session-scoped name->handle cache, and the
`getLocal` / `flush` / `clear` lifecycle built on top of them.

Modelling conventions, matching the source:

* An AVM object, as the codec sees it, is its ordered list of own
  properties together with the outcome of the host's callable check.  An
  entry `(k, none)` models a property whose `obj.get(k, activation)`
  returns `Err` (the `if let Ok(elem)` guard in `recursive_serialize`);
  `(k, some v)` models a successful read.  `get_keys` of a live object
  yields each own key once, in host order, which is exactly the entry
  order of the list.
* The `f64` payload of `Value::Number` (and of `JsonValue::Number`) is an
  opaque type parameter `α`: the codec only carries numbers through, it
  never computes with them, and the json crate's number representation
  round-trips the value unchanged at this interface.
* `JsonValue` of the json crate is mirrored including its `Short` interned
  string variant (produced by parsing, read back exactly like `String`)
  and its `Array` variant (never produced by the encoder, skipped by the
  decoder).
* `json_obj[k] = v` of the json crate and `define_value` of the host both
  replace the value in place when the key is present and append the entry
  otherwise; both are modelled by `alistInsert`.
* The external collaborators are explicit parameters: `coerce` stands for
  `Value::coerce_to_string`, `parse` for `json::parse`, `dump` for
  `JsonValue::dump`, and the backend's write-success behaviour is a
  function field `writeOk` of the `Backend` structure.
* Handle identity is modelled by a heap: the context stores handles under
  numeric ids, the cache maps names to ids, and `getLocal` returns an id.
  Returning a cached id models returning the very same live object.
-/

set_option maxHeartbeats 1000000

namespace SharedObjectSpec

/-- Lookup in an association list: the value at the first matching key. -/
def alistLookup {κ β : Type} [DecidableEq κ] : List (κ × β) → κ → Option β
  | [], _ => none
  | (k, v) :: rest, q => if k = q then some v else alistLookup rest q

/-- Map-style insert into an association list: replace the value in place
when the key is present, append the entry otherwise.  This is the
semantics of both `json_obj[k] = v` of the json crate and `define_value`
of the host object model. -/
def alistInsert {κ β : Type} [DecidableEq κ] : List (κ × β) → κ → β → List (κ × β)
  | [], q, v => [(q, v)]
  | (k, w) :: rest, q, v =>
    if k = q then (q, v) :: rest else (k, w) :: alistInsert rest q v

/-- Removal of a key from an association list (`Backend::remove_key`). -/
def alistErase {κ β : Type} [DecidableEq κ] : List (κ × β) → κ → List (κ × β)
  | [], _ => []
  | (k, w) :: rest, q =>
    if k = q then alistErase rest q else (k, w) :: alistErase rest q

/-- `keyFresh q l` holds when no entry of `l` has key `q`. -/
def keyFresh {κ β : Type} [DecidableEq κ] (q : κ) (l : List (κ × β)) : Bool :=
  l.all fun e => decide (e.1 ≠ q)

/-- Pairwise distinctness of the keys of an association list.  The own
keys of a live object, and the keys of a parsed JSON object, are distinct. -/
def nodupKeys {κ β : Type} [DecidableEq κ] : List (κ × β) → Bool
  | [] => true
  | (k, _) :: rest => keyFresh k rest && nodupKeys rest

/-- The AVM1 runtime values the codec dispatches on (`Value` of the
source).  An object carries the outcome of the host's callable check
(`is_instance_of(o, function).unwrap_or_default()` in
`recursive_serialize`) and its own properties; a property entry
`(k, none)` is one whose host read fails. -/
inductive Value (α : Type) : Type where
  | undefined : Value α
  | null : Value α
  | bool (b : Bool) : Value α
  | num (n : α) : Value α
  | str (s : String) : Value α
  | obj (callable : Bool) (props : List (String × Option (Value α))) : Value α

/-- The `JsonValue` type of the json crate, with number payload `α`. -/
inductive Json (α : Type) : Type where
  | null : Json α
  | short (s : String) : Json α
  | str (s : String) : Json α
  | num (n : α) : Json α
  | bool (b : Bool) : Json α
  | obj (entries : List (String × Json α)) : Json α
  | arr (elems : List (Json α)) : Json α

mutual

/-- The loop body of `recursive_serialize`: fold over the object's
entries, writing each supported value into the JSON object accumulator
with `json_obj[k] = v`, skipping failed reads, `Undefined`, and callables,
and recursing into non-callable sub-objects from a fresh empty JSON
object. -/
def recursiveSerialize {α : Type} (jsonObj : List (String × Json α)) :
    List (String × Option (Value α)) → List (String × Json α)
  | [] => jsonObj
  | (_, none) :: rest => recursiveSerialize jsonObj rest
  | (k, some v) :: rest =>
    match v with
    | .undefined => recursiveSerialize jsonObj rest
    | .null => recursiveSerialize (alistInsert jsonObj k .null) rest
    | .bool b => recursiveSerialize (alistInsert jsonObj k (.bool b)) rest
    | .num n => recursiveSerialize (alistInsert jsonObj k (.num n)) rest
    | .str s => recursiveSerialize (alistInsert jsonObj k (.str s)) rest
    | .obj c props =>
      if c then recursiveSerialize jsonObj rest
      else recursiveSerialize (alistInsert jsonObj k (.obj (serializeObj props))) rest

/-- `recursive_serialize` run from `JsonValue::new_object()`: the entries
of the document produced for one object. -/
def serializeObj {α : Type} (props : List (String × Option (Value α))) :
    List (String × Json α) :=
  recursiveSerialize [] props

end

mutual

/-- The loop body of `recursive_deserialize`: fold over the JSON object's
entries, defining each supported value on the target object with
`define_value`, reading `Short` like `String`, rebuilding nested objects
as fresh bare (non-callable) objects, and skipping arrays. -/
def recursiveDeserialize {α : Type} (object : List (String × Option (Value α))) :
    List (String × Json α) → List (String × Option (Value α))
  | [] => object
  | (k, j) :: rest =>
    match j with
    | .null => recursiveDeserialize (alistInsert object k (some .null)) rest
    | .short s => recursiveDeserialize (alistInsert object k (some (.str s))) rest
    | .str s => recursiveDeserialize (alistInsert object k (some (.str s))) rest
    | .num n => recursiveDeserialize (alistInsert object k (some (.num n))) rest
    | .bool b => recursiveDeserialize (alistInsert object k (some (.bool b))) rest
    | .obj o =>
      recursiveDeserialize (alistInsert object k (some (.obj false (deserializeObj o)))) rest
    | .arr _ => recursiveDeserialize object rest

/-- `recursive_deserialize` run into a fresh bare object: the properties
defined for one document object. -/
def deserializeObj {α : Type} (entries : List (String × Json α)) :
    List (String × Option (Value α)) :=
  recursiveDeserialize [] entries

end

/-- `recursive_deserialize(json_data, activation, data)` applied to the
result of `json::parse`: `JsonValue::entries()` is the entry list for an
object and empty for every other variant, so only a top-level object
populates the data object. -/
def deserializeTop {α : Type} : Json α → List (String × Option (Value α))
  | .obj o => deserializeObj o
  | _ => []

mutual

/-- A runtime value that persists: not `Undefined`, not a callable, every
property read succeeds, and sibling keys are distinct (own keys of a live
object are distinct), recursively. -/
def plainVal {α : Type} : Value α → Bool
  | .undefined => false
  | .null => true
  | .bool _ => true
  | .num _ => true
  | .str _ => true
  | .obj c props => !c && plainProps props

/-- Property lists of persisting values: see `plainVal`. -/
def plainProps {α : Type} : List (String × Option (Value α)) → Bool
  | [] => true
  | (_, none) :: _ => false
  | (k, some v) :: rest => plainVal v && keyFresh k rest && plainProps rest

end

/-- The Persistent Key-Value Backend: stored strings plus the medium's
write-success behaviour. -/
structure Backend : Type where
  entries : List (String × String)
  writeOk : String → String → Bool

/-- `get_string` of the backend interface. -/
def Backend.getString (b : Backend) (k : String) : Option String :=
  alistLookup b.entries k

/-- `put_string` of the backend interface: stores the value and reports
`true` when the medium accepts the write, reports `false` otherwise. -/
def Backend.putString (b : Backend) (k v : String) : Backend × Bool :=
  if b.writeOk k v then ({ b with entries := alistInsert b.entries k v }, true)
  else (b, false)

/-- `remove_key` of the backend interface. -/
def Backend.removeKey (b : Backend) (k : String) : Backend :=
  { b with entries := alistErase b.entries k }

/-- A `SharedObject` handle on the heap: its internal name (`set_name` /
`get_name`) and the own properties of its `data` object. -/
structure SOData (α : Type) : Type where
  name : String
  data : List (String × Option (Value α))

/-- The pieces of the activation context that `getLocal` / `clear` /
`flush` touch: the id supply for fresh objects, the session-scoped
`shared_objects` name->handle cache, the heap of live handles, and the
storage backend. -/
structure SOContext (α : Type) : Type where
  nextId : Nat
  sharedObjects : List (String × Nat)
  heap : List (Nat × SOData α)
  storage : Backend

/-- The data-seeding step of `get_local`: a freshly created bare data
object stays empty unless the backend holds a string for the name and
`json::parse` accepts it, in which case the parse result is deserialized
into it. -/
def seedData {α : Type} (parse : String → Option (Json α)) :
    Option String → List (String × Option (Value α))
  | none => []
  | some saved =>
    match parse saved with
    | none => []
    | some j => deserializeTop j

/-- `args.get(0).unwrap_or(&Value::Undefined)`: the first call argument,
defaulting to `Undefined`. -/
def firstArg {α : Type} (args : List (Value α)) : Value α :=
  args.headD .undefined

/-- `get_local` (`SharedObject.getLocal`): coerce the first argument (or
`Undefined` when absent) to a string name; return the cached handle when
the cache has the name; otherwise construct a fresh handle, seed its data
object from storage, register it in the cache under the name, and return
it.  The returned `Nat` is the identity of the returned handle. -/
def getLocal {α : Type} (coerce : Value α → String) (parse : String → Option (Json α))
    (ctx : SOContext α) (args : List (Value α)) : SOContext α × Nat :=
  let name := coerce (firstArg args)
  match alistLookup ctx.sharedObjects name with
  | some id => (ctx, id)
  | none =>
    let id := ctx.nextId
    let data := seedData parse (ctx.storage.getString name)
    ({ nextId := id + 1,
       sharedObjects := alistInsert ctx.sharedObjects name id,
       heap := alistInsert ctx.heap id { name := name, data := data },
       storage := ctx.storage }, id)

/-- `clear` (`SharedObject.clear`): delete every own property of the
handle's data object, then remove the backend entry for the handle's
name.  The handle cache is not touched. -/
def clear {α : Type} (ctx : SOContext α) (id : Nat) : SOContext α :=
  match alistLookup ctx.heap id with
  | none => ctx
  | some so =>
    { ctx with
      heap := alistInsert ctx.heap id { so with data := [] },
      storage := ctx.storage.removeKey so.name }

/-- `flush` (`SharedObject.flush`): serialize the handle's data object
into a document, dump it to a string, write it to the backend under the
handle's name, and return the backend's success flag. -/
def flush {α : Type} (dump : Json α → String) (ctx : SOContext α) (id : Nat) :
    SOContext α × Bool :=
  match alistLookup ctx.heap id with
  | none => (ctx, false)
  | some so =>
    let res := ctx.storage.putString so.name (dump (Json.obj (serializeObj so.data)))
    ({ ctx with storage := res.1 }, res.2)

/-- The document value `recursive_serialize` writes for one runtime
value: `none` for the skipped forms (`Undefined` and callables). -/
def serializeHead {α : Type} : Value α → Option (Json α)
  | .undefined => none
  | .null => some .null
  | .bool b => some (.bool b)
  | .num n => some (.num n)
  | .str s => some (.str s)
  | .obj c props => if c then none else some (.obj (serializeObj props))

/-- The runtime value `recursive_deserialize` defines for one document
value: `none` for the skipped array form. -/
def deserializeHead {α : Type} : Json α → Option (Value α)
  | .null => some .null
  | .short s => some (.str s)
  | .str s => some (.str s)
  | .num n => some (.num n)
  | .bool b => some (.bool b)
  | .obj o => some (.obj false (deserializeObj o))
  | .arr _ => none

theorem keyFresh_nil {κ β : Type} [DecidableEq κ] (q : κ) :
    keyFresh q ([] : List (κ × β)) = true := rfl

theorem keyFresh_cons {κ β : Type} [DecidableEq κ] {q k : κ} {w : β}
    {rest : List (κ × β)} :
    keyFresh q ((k, w) :: rest) = true ↔ k ≠ q ∧ keyFresh q rest = true := by
  simp [keyFresh]

theorem keyFresh_iff {κ β : Type} [DecidableEq κ] {q : κ} {l : List (κ × β)} :
    keyFresh q l = true ↔ ∀ e ∈ l, e.1 ≠ q := by
  simp [keyFresh]

theorem alistLookup_of_keyFresh {κ β : Type} [DecidableEq κ] {q : κ}
    {l : List (κ × β)} (h : keyFresh q l = true) : alistLookup l q = none := by
  induction l with
  | nil => rfl
  | cons e rest ih =>
    obtain ⟨k, w⟩ := e
    obtain ⟨hk, hrest⟩ := keyFresh_cons.mp h
    simp [alistLookup, hk, ih hrest]

theorem alistLookup_insert_self {κ β : Type} [DecidableEq κ]
    (l : List (κ × β)) (k : κ) (v : β) :
    alistLookup (alistInsert l k v) k = some v := by
  induction l with
  | nil => simp [alistInsert, alistLookup]
  | cons e rest ih =>
    obtain ⟨k', w⟩ := e
    by_cases hk : k' = k
    · simp [alistInsert, hk, alistLookup]
    · simp [alistInsert, hk, alistLookup, ih]

theorem alistInsert_of_keyFresh {κ β : Type} [DecidableEq κ] {k : κ}
    {l : List (κ × β)} (v : β) (h : keyFresh k l = true) :
    alistInsert l k v = l ++ [(k, v)] := by
  induction l with
  | nil => rfl
  | cons e rest ih =>
    obtain ⟨k', w⟩ := e
    obtain ⟨hk, hrest⟩ := keyFresh_cons.mp h
    simp [alistInsert, hk, ih hrest]

theorem keyFresh_insert {κ β : Type} [DecidableEq κ] {q k : κ} {l : List (κ × β)}
    (v : β) (h : keyFresh q l = true) (hk : k ≠ q) :
    keyFresh q (alistInsert l k v) = true := by
  induction l with
  | nil => simp [alistInsert, keyFresh, hk]
  | cons e rest ih =>
    obtain ⟨k', w⟩ := e
    obtain ⟨hk', hrest⟩ := keyFresh_cons.mp h
    by_cases he : k' = k
    · simp [alistInsert, he, keyFresh_cons, hk, hrest]
    · simp [alistInsert, he, keyFresh_cons, hk', ih hrest]

theorem alistLookup_erase_self {κ β : Type} [DecidableEq κ]
    (l : List (κ × β)) (k : κ) : alistLookup (alistErase l k) k = none := by
  induction l with
  | nil => rfl
  | cons e rest ih =>
    obtain ⟨k', w⟩ := e
    by_cases hk : k' = k
    · simp [alistErase, hk, ih]
    · simp [alistErase, hk, alistLookup, ih]

theorem keyFresh_recursiveSerialize {α : Type} {q : String}
    (props : List (String × Option (Value α))) :
    ∀ acc : List (String × Json α), keyFresh q acc = true → keyFresh q props = true →
    keyFresh q (recursiveSerialize acc props) = true := by
  induction props with
  | nil => intro acc hacc _; simpa [recursiveSerialize] using hacc
  | cons e rest ih =>
    obtain ⟨k, g⟩ := e
    intro acc hacc hp
    obtain ⟨hk, hrest⟩ := keyFresh_cons.mp hp
    have hins : ∀ jv : Json α, keyFresh q (alistInsert acc k jv) = true :=
      fun jv => keyFresh_insert jv hacc hk
    rcases g with _ | v
    · simpa [recursiveSerialize] using ih acc hacc hrest
    · cases v with
      | undefined => simpa [recursiveSerialize] using ih acc hacc hrest
      | null => simpa [recursiveSerialize] using ih _ (hins _) hrest
      | bool b => simpa [recursiveSerialize] using ih _ (hins _) hrest
      | num n => simpa [recursiveSerialize] using ih _ (hins _) hrest
      | str s => simpa [recursiveSerialize] using ih _ (hins _) hrest
      | obj c sub =>
        cases c
        · simpa [recursiveSerialize] using ih _ (hins _) hrest
        · simpa [recursiveSerialize] using ih acc hacc hrest

theorem keyFresh_serializeObj {α : Type} {q : String}
    {props : List (String × Option (Value α))} (h : keyFresh q props = true) :
    keyFresh q (serializeObj props) = true := by
  rw [serializeObj]
  exact keyFresh_recursiveSerialize props [] (keyFresh_nil q) h

theorem keyFresh_recursiveDeserialize {α : Type} {q : String}
    (entries : List (String × Json α)) :
    ∀ object : List (String × Option (Value α)), keyFresh q object = true →
    keyFresh q entries = true →
    keyFresh q (recursiveDeserialize object entries) = true := by
  induction entries with
  | nil => intro object hobj _; simpa [recursiveDeserialize] using hobj
  | cons e rest ih =>
    obtain ⟨k, j⟩ := e
    intro object hobj hp
    obtain ⟨hk, hrest⟩ := keyFresh_cons.mp hp
    have hins : ∀ w : Option (Value α), keyFresh q (alistInsert object k w) = true :=
      fun w => keyFresh_insert w hobj hk
    cases j with
    | null => simpa [recursiveDeserialize] using ih _ (hins _) hrest
    | short s => simpa [recursiveDeserialize] using ih _ (hins _) hrest
    | str s => simpa [recursiveDeserialize] using ih _ (hins _) hrest
    | num n => simpa [recursiveDeserialize] using ih _ (hins _) hrest
    | bool b => simpa [recursiveDeserialize] using ih _ (hins _) hrest
    | obj o => simpa [recursiveDeserialize] using ih _ (hins _) hrest
    | arr es => simpa [recursiveDeserialize] using ih object hobj hrest

theorem keyFresh_deserializeObj {α : Type} {q : String}
    {entries : List (String × Json α)} (h : keyFresh q entries = true) :
    keyFresh q (deserializeObj entries) = true := by
  rw [deserializeObj]
  exact keyFresh_recursiveDeserialize entries [] (keyFresh_nil q) h

theorem recursiveSerialize_append {α : Type} (props : List (String × Option (Value α))) :
    ∀ acc : List (String × Json α), nodupKeys props = true →
    (∀ e ∈ props, keyFresh e.1 acc = true) →
    recursiveSerialize acc props = acc ++ serializeObj props := by
  induction props with
  | nil => intro acc _ _; simp [recursiveSerialize, serializeObj]
  | cons e rest ih =>
    obtain ⟨k, g⟩ := e
    intro acc hnd hdis
    have hkf : keyFresh k rest = true ∧ nodupKeys rest = true := by
      simpa [nodupKeys, Bool.and_eq_true] using hnd
    have hka : keyFresh k acc = true := hdis (k, g) (List.mem_cons_self _ _)
    have hfr : ∀ e ∈ rest, e.1 ≠ k := fun e he => keyFresh_iff.mp hkf.1 e he
    have hdis' : ∀ jv : Json α, ∀ e ∈ rest, keyFresh e.1 (alistInsert acc k jv) = true :=
      fun jv e he =>
        keyFresh_insert jv (hdis e (List.mem_cons_of_mem _ he)) (Ne.symm (hfr e he))
    have hdis0 : ∀ jv : Json α, ∀ e ∈ rest, keyFresh e.1 [(k, jv)] = true := by
      intro jv e he
      exact keyFresh_cons.mpr ⟨Ne.symm (hfr e he), rfl⟩
    have key : ∀ jv : Json α, recursiveSerialize (alistInsert acc k jv) rest
        = acc ++ ((k, jv) :: serializeObj rest) := by
      intro jv
      rw [ih (alistInsert acc k jv) hkf.2 (hdis' jv), alistInsert_of_keyFresh jv hka,
        List.append_assoc]
      rfl
    have key0 : ∀ jv : Json α, recursiveSerialize [(k, jv)] rest
        = (k, jv) :: serializeObj rest := by
      intro jv
      simpa using ih [(k, jv)] hkf.2 (hdis0 jv)
    rcases g with _ | v
    · rw [show recursiveSerialize acc ((k, none) :: rest) = recursiveSerialize acc rest
        from by simp [recursiveSerialize]]
      rw [show serializeObj ((k, (none : Option (Value α))) :: rest) = serializeObj rest
        from by rw [serializeObj, serializeObj]; simp [recursiveSerialize]]
      exact ih acc hkf.2 fun e he => hdis e (List.mem_cons_of_mem _ he)
    · cases v with
      | undefined =>
        rw [show recursiveSerialize acc ((k, some Value.undefined) :: rest)
            = recursiveSerialize acc rest from by simp [recursiveSerialize]]
        rw [show serializeObj ((k, some (Value.undefined : Value α)) :: rest) = serializeObj rest
          from by rw [serializeObj, serializeObj]; simp [recursiveSerialize]]
        exact ih acc hkf.2 fun e he => hdis e (List.mem_cons_of_mem _ he)
      | null =>
        rw [show recursiveSerialize acc ((k, some Value.null) :: rest)
            = recursiveSerialize (alistInsert acc k Json.null) rest
          from by simp [recursiveSerialize]]
        rw [show serializeObj ((k, some (Value.null : Value α)) :: rest)
            = recursiveSerialize [(k, Json.null)] rest
          from by rw [serializeObj]; simp [recursiveSerialize, alistInsert]]
        rw [key, key0]
      | bool b =>
        rw [show recursiveSerialize acc ((k, some (Value.bool b)) :: rest)
            = recursiveSerialize (alistInsert acc k (Json.bool b)) rest
          from by simp [recursiveSerialize]]
        rw [show serializeObj ((k, some (Value.bool b : Value α)) :: rest)
            = recursiveSerialize [(k, Json.bool b)] rest
          from by rw [serializeObj]; simp [recursiveSerialize, alistInsert]]
        rw [key, key0]
      | num n =>
        rw [show recursiveSerialize acc ((k, some (Value.num n)) :: rest)
            = recursiveSerialize (alistInsert acc k (Json.num n)) rest
          from by simp [recursiveSerialize]]
        rw [show serializeObj ((k, some (Value.num n : Value α)) :: rest)
            = recursiveSerialize [(k, Json.num n)] rest
          from by rw [serializeObj]; simp [recursiveSerialize, alistInsert]]
        rw [key, key0]
      | str s =>
        rw [show recursiveSerialize acc ((k, some (Value.str s)) :: rest)
            = recursiveSerialize (alistInsert acc k (Json.str s)) rest
          from by simp [recursiveSerialize]]
        rw [show serializeObj ((k, some (Value.str s : Value α)) :: rest)
            = recursiveSerialize [(k, Json.str s)] rest
          from by rw [serializeObj]; simp [recursiveSerialize, alistInsert]]
        rw [key, key0]
      | obj c sub =>
        cases c
        · rw [show recursiveSerialize acc ((k, some (Value.obj false sub)) :: rest)
              = recursiveSerialize (alistInsert acc k (Json.obj (serializeObj sub))) rest
            from by simp [recursiveSerialize]]
          rw [show serializeObj ((k, some (Value.obj false sub)) :: rest)
              = recursiveSerialize [(k, Json.obj (serializeObj sub))] rest
            from by rw [serializeObj]; simp [recursiveSerialize, alistInsert]]
          rw [key, key0]
        · rw [show recursiveSerialize acc ((k, some (Value.obj true sub)) :: rest)
              = recursiveSerialize acc rest from by simp [recursiveSerialize]]
          rw [show serializeObj ((k, some (Value.obj true sub)) :: rest) = serializeObj rest
            from by rw [serializeObj, serializeObj]; simp [recursiveSerialize]]
          exact ih acc hkf.2 fun e he => hdis e (List.mem_cons_of_mem _ he)

theorem recursiveDeserialize_append {α : Type} (entries : List (String × Json α)) :
    ∀ object : List (String × Option (Value α)), nodupKeys entries = true →
    (∀ e ∈ entries, keyFresh e.1 object = true) →
    recursiveDeserialize object entries = object ++ deserializeObj entries := by
  induction entries with
  | nil => intro object _ _; simp [recursiveDeserialize, deserializeObj]
  | cons e rest ih =>
    obtain ⟨k, j⟩ := e
    intro object hnd hdis
    have hkf : keyFresh k rest = true ∧ nodupKeys rest = true := by
      simpa [nodupKeys, Bool.and_eq_true] using hnd
    have hka : keyFresh k object = true := hdis (k, j) (List.mem_cons_self _ _)
    have hfr : ∀ e ∈ rest, e.1 ≠ k := fun e he => keyFresh_iff.mp hkf.1 e he
    have hdis' : ∀ w : Option (Value α), ∀ e ∈ rest,
        keyFresh e.1 (alistInsert object k w) = true :=
      fun w e he =>
        keyFresh_insert w (hdis e (List.mem_cons_of_mem _ he)) (Ne.symm (hfr e he))
    have hdis0 : ∀ w : Option (Value α), ∀ e ∈ rest, keyFresh e.1 [(k, w)] = true := by
      intro w e he
      exact keyFresh_cons.mpr ⟨Ne.symm (hfr e he), rfl⟩
    have key : ∀ w : Option (Value α), recursiveDeserialize (alistInsert object k w) rest
        = object ++ ((k, w) :: deserializeObj rest) := by
      intro w
      rw [ih (alistInsert object k w) hkf.2 (hdis' w), alistInsert_of_keyFresh w hka,
        List.append_assoc]
      rfl
    have key0 : ∀ w : Option (Value α), recursiveDeserialize [(k, w)] rest
        = (k, w) :: deserializeObj rest := by
      intro w
      simpa using ih [(k, w)] hkf.2 (hdis0 w)
    cases j with
    | null =>
      rw [show recursiveDeserialize object ((k, Json.null) :: rest)
          = recursiveDeserialize (alistInsert object k (some Value.null)) rest
        from by simp [recursiveDeserialize]]
      rw [show deserializeObj ((k, (Json.null : Json α)) :: rest)
          = recursiveDeserialize [(k, some Value.null)] rest
        from by rw [deserializeObj]; simp [recursiveDeserialize, alistInsert]]
      rw [key, key0]
    | short s =>
      rw [show recursiveDeserialize object ((k, Json.short s) :: rest)
          = recursiveDeserialize (alistInsert object k (some (Value.str s))) rest
        from by simp [recursiveDeserialize]]
      rw [show deserializeObj ((k, (Json.short s : Json α)) :: rest)
          = recursiveDeserialize [(k, some (Value.str s))] rest
        from by rw [deserializeObj]; simp [recursiveDeserialize, alistInsert]]
      rw [key, key0]
    | str s =>
      rw [show recursiveDeserialize object ((k, Json.str s) :: rest)
          = recursiveDeserialize (alistInsert object k (some (Value.str s))) rest
        from by simp [recursiveDeserialize]]
      rw [show deserializeObj ((k, (Json.str s : Json α)) :: rest)
          = recursiveDeserialize [(k, some (Value.str s))] rest
        from by rw [deserializeObj]; simp [recursiveDeserialize, alistInsert]]
      rw [key, key0]
    | num n =>
      rw [show recursiveDeserialize object ((k, Json.num n) :: rest)
          = recursiveDeserialize (alistInsert object k (some (Value.num n))) rest
        from by simp [recursiveDeserialize]]
      rw [show deserializeObj ((k, (Json.num n : Json α)) :: rest)
          = recursiveDeserialize [(k, some (Value.num n))] rest
        from by rw [deserializeObj]; simp [recursiveDeserialize, alistInsert]]
      rw [key, key0]
    | bool b =>
      rw [show recursiveDeserialize object ((k, Json.bool b) :: rest)
          = recursiveDeserialize (alistInsert object k (some (Value.bool b))) rest
        from by simp [recursiveDeserialize]]
      rw [show deserializeObj ((k, (Json.bool b : Json α)) :: rest)
          = recursiveDeserialize [(k, some (Value.bool b))] rest
        from by rw [deserializeObj]; simp [recursiveDeserialize, alistInsert]]
      rw [key, key0]
    | obj o =>
      rw [show recursiveDeserialize object ((k, Json.obj o) :: rest)
          = recursiveDeserialize
              (alistInsert object k (some (Value.obj false (deserializeObj o)))) rest
        from by simp [recursiveDeserialize]]
      rw [show deserializeObj ((k, (Json.obj o : Json α)) :: rest)
          = recursiveDeserialize [(k, some (Value.obj false (deserializeObj o)))] rest
        from by rw [deserializeObj]; simp [recursiveDeserialize, alistInsert]]
      rw [key, key0]
    | arr es =>
      rw [show recursiveDeserialize object ((k, Json.arr es) :: rest)
          = recursiveDeserialize object rest from by simp [recursiveDeserialize]]
      rw [show deserializeObj ((k, (Json.arr es : Json α)) :: rest) = deserializeObj rest
        from by rw [deserializeObj, deserializeObj]; simp [recursiveDeserialize]]
      exact ih object hkf.2 fun e he => hdis e (List.mem_cons_of_mem _ he)

theorem serializeObj_cons_some {α : Type} {k : String} {v : Value α} {jv : Json α}
    {rest : List (String × Option (Value α))} (hv : serializeHead v = some jv)
    (hk : keyFresh k rest = true) (hnd : nodupKeys rest = true) :
    serializeObj ((k, some v) :: rest) = (k, jv) :: serializeObj rest := by
  have hdis : ∀ e ∈ rest, keyFresh e.1 [(k, jv)] = true := by
    intro e he
    exact keyFresh_cons.mpr ⟨Ne.symm (keyFresh_iff.mp hk e he), rfl⟩
  have key0 : recursiveSerialize [(k, jv)] rest = (k, jv) :: serializeObj rest := by
    simpa using recursiveSerialize_append rest [(k, jv)] hnd hdis
  cases v with
  | undefined => simp [serializeHead] at hv
  | null =>
    obtain rfl : Json.null = jv := by simpa [serializeHead] using hv
    rw [serializeObj]
    simp only [recursiveSerialize, alistInsert]
    exact key0
  | bool b =>
    obtain rfl : Json.bool b = jv := by simpa [serializeHead] using hv
    rw [serializeObj]
    simp only [recursiveSerialize, alistInsert]
    exact key0
  | num n =>
    obtain rfl : Json.num n = jv := by simpa [serializeHead] using hv
    rw [serializeObj]
    simp only [recursiveSerialize, alistInsert]
    exact key0
  | str s =>
    obtain rfl : Json.str s = jv := by simpa [serializeHead] using hv
    rw [serializeObj]
    simp only [recursiveSerialize, alistInsert]
    exact key0
  | obj c sub =>
    cases c
    · obtain rfl : Json.obj (serializeObj sub) = jv := by simpa [serializeHead] using hv
      rw [serializeObj]
      simp only [recursiveSerialize, alistInsert, if_neg Bool.false_ne_true]
      exact key0
    · simp [serializeHead] at hv

theorem serializeObj_cons_skip {α : Type} {k : String} {v : Value α}
    {rest : List (String × Option (Value α))} (hv : serializeHead v = none) :
    serializeObj ((k, some v) :: rest) = serializeObj rest := by
  cases v with
  | undefined => rw [serializeObj, serializeObj]; simp [recursiveSerialize]
  | null => simp [serializeHead] at hv
  | bool b => simp [serializeHead] at hv
  | num n => simp [serializeHead] at hv
  | str s => simp [serializeHead] at hv
  | obj c sub =>
    cases c
    · simp [serializeHead] at hv
    · rw [serializeObj, serializeObj]; simp [recursiveSerialize]

theorem serializeObj_cons_none {α : Type} {k : String}
    {rest : List (String × Option (Value α))} :
    serializeObj ((k, (none : Option (Value α))) :: rest) = serializeObj rest := by
  rw [serializeObj, serializeObj]
  simp [recursiveSerialize]

theorem deserializeObj_cons_some {α : Type} {k : String} {j : Json α} {v : Value α}
    {rest : List (String × Json α)} (hj : deserializeHead j = some v)
    (hk : keyFresh k rest = true) (hnd : nodupKeys rest = true) :
    deserializeObj ((k, j) :: rest) = (k, some v) :: deserializeObj rest := by
  have hdis : ∀ e ∈ rest, keyFresh e.1 [(k, some v)] = true := by
    intro e he
    exact keyFresh_cons.mpr ⟨Ne.symm (keyFresh_iff.mp hk e he), rfl⟩
  have key0 : recursiveDeserialize [(k, some v)] rest
      = (k, some v) :: deserializeObj rest := by
    simpa using recursiveDeserialize_append rest [(k, some v)] hnd hdis
  cases j with
  | null =>
    obtain rfl : Value.null = v := by simpa [deserializeHead] using hj
    rw [deserializeObj]
    simp only [recursiveDeserialize, alistInsert]
    exact key0
  | short s =>
    obtain rfl : Value.str s = v := by simpa [deserializeHead] using hj
    rw [deserializeObj]
    simp only [recursiveDeserialize, alistInsert]
    exact key0
  | str s =>
    obtain rfl : Value.str s = v := by simpa [deserializeHead] using hj
    rw [deserializeObj]
    simp only [recursiveDeserialize, alistInsert]
    exact key0
  | num n =>
    obtain rfl : Value.num n = v := by simpa [deserializeHead] using hj
    rw [deserializeObj]
    simp only [recursiveDeserialize, alistInsert]
    exact key0
  | bool b =>
    obtain rfl : Value.bool b = v := by simpa [deserializeHead] using hj
    rw [deserializeObj]
    simp only [recursiveDeserialize, alistInsert]
    exact key0
  | obj o =>
    obtain rfl : Value.obj false (deserializeObj o) = v := by
      simpa [deserializeHead] using hj
    rw [deserializeObj]
    simp only [recursiveDeserialize, alistInsert]
    exact key0
  | arr es => simp [deserializeHead] at hj

theorem deserializeObj_cons_arr {α : Type} {k : String} {es : List (Json α)}
    {rest : List (String × Json α)} :
    deserializeObj ((k, Json.arr es) :: rest) = deserializeObj rest := by
  rw [deserializeObj, deserializeObj]
  simp [recursiveDeserialize]

theorem nodupKeys_of_plainProps {α : Type} (props : List (String × Option (Value α)))
    (h : plainProps props = true) : nodupKeys props = true := by
  induction props with
  | nil => rfl
  | cons e rest ih =>
    obtain ⟨k, g⟩ := e
    rcases g with _ | v
    · simp [plainProps] at h
    · have h' : plainVal v = true ∧ keyFresh k rest = true ∧ plainProps rest = true := by
        simpa [plainProps, Bool.and_eq_true, and_assoc] using h
      simp [nodupKeys, h'.2.1, ih h'.2.2]

theorem nodupKeys_serializeObj {α : Type} (props : List (String × Option (Value α)))
    (h : plainProps props = true) : nodupKeys (serializeObj props) = true := by
  induction props with
  | nil => rw [serializeObj]; simp [recursiveSerialize, nodupKeys]
  | cons e rest ih =>
    obtain ⟨k, g⟩ := e
    rcases g with _ | v
    · simp [plainProps] at h
    · have h' : plainVal v = true ∧ keyFresh k rest = true ∧ plainProps rest = true := by
        simpa [plainProps, Bool.and_eq_true, and_assoc] using h
      have hjv : ∃ jv : Json α, serializeHead v = some jv := by
        cases v with
        | undefined => simp [plainVal] at h'
        | null => exact ⟨_, rfl⟩
        | bool b => exact ⟨_, rfl⟩
        | num n => exact ⟨_, rfl⟩
        | str s => exact ⟨_, rfl⟩
        | obj c sub =>
          cases c
          · exact ⟨_, rfl⟩
          · have := h'.1
            simp [plainVal] at this
      obtain ⟨jv, hjv⟩ := hjv
      rw [serializeObj_cons_some hjv h'.2.1 (nodupKeys_of_plainProps rest h'.2.2)]
      simp [nodupKeys, keyFresh_serializeObj h'.2.1, ih h'.2.2]

theorem roundtrip_aux {α : Type} :
    ∀ (n : Nat) (props : List (String × Option (Value α))), sizeOf props < n →
    plainProps props = true → deserializeObj (serializeObj props) = props := by
  intro n
  induction n with
  | zero => intro props h _; omega
  | succ n ih =>
    intro props hsz hp
    cases props with
    | nil =>
      rw [serializeObj]
      simp [recursiveSerialize, deserializeObj, recursiveDeserialize]
    | cons e rest =>
      obtain ⟨k, g⟩ := e
      rcases g with _ | v
      · simp [plainProps] at hp
      · have h' : plainVal v = true ∧ keyFresh k rest = true ∧ plainProps rest = true := by
          simpa [plainProps, Bool.and_eq_true, and_assoc] using hp
        have hndr : nodupKeys rest = true := nodupKeys_of_plainProps rest h'.2.2
        have hkS : keyFresh k (serializeObj rest) = true := keyFresh_serializeObj h'.2.1
        have hndS : nodupKeys (serializeObj rest) = true :=
          nodupKeys_serializeObj rest h'.2.2
        have hrest : sizeOf rest < n := by
          have h1 := hsz
          simp only [List.cons.sizeOf_spec, Prod.mk.sizeOf_spec] at h1
          omega
        have hrtr : deserializeObj (serializeObj rest) = rest := ih rest hrest h'.2.2
        cases v with
        | undefined => simp [plainVal] at h'
        | null =>
          rw [serializeObj_cons_some (show serializeHead (Value.null : Value α)
              = some Json.null from rfl) h'.2.1 hndr]
          rw [deserializeObj_cons_some (show deserializeHead (Json.null : Json α)
              = some Value.null from rfl) hkS hndS]
          rw [hrtr]
        | bool b =>
          rw [serializeObj_cons_some (show serializeHead (Value.bool b : Value α)
              = some (Json.bool b) from rfl) h'.2.1 hndr]
          rw [deserializeObj_cons_some (show deserializeHead (Json.bool b : Json α)
              = some (Value.bool b) from rfl) hkS hndS]
          rw [hrtr]
        | num m =>
          rw [serializeObj_cons_some (show serializeHead (Value.num m)
              = some (Json.num m) from rfl) h'.2.1 hndr]
          rw [deserializeObj_cons_some (show deserializeHead (Json.num m)
              = some (Value.num m) from rfl) hkS hndS]
          rw [hrtr]
        | str s =>
          rw [serializeObj_cons_some (show serializeHead (Value.str s : Value α)
              = some (Json.str s) from rfl) h'.2.1 hndr]
          rw [deserializeObj_cons_some (show deserializeHead (Json.str s : Json α)
              = some (Value.str s) from rfl) hkS hndS]
          rw [hrtr]
        | obj c sub =>
          have hc : c = false ∧ plainProps sub = true := by
            have h1 := h'.1
            cases c
            · simpa [plainVal] using h1
            · simp [plainVal] at h1
          cases hc.1
          have hsub : sizeOf sub < n := by
            have h1 := hsz
            simp only [List.cons.sizeOf_spec, Prod.mk.sizeOf_spec,
              Option.some.sizeOf_spec, Value.obj.sizeOf_spec] at h1
            omega
          rw [serializeObj_cons_some (show serializeHead (Value.obj false sub)
              = some (Json.obj (serializeObj sub)) from by simp [serializeHead])
            h'.2.1 hndr]
          rw [deserializeObj_cons_some (show deserializeHead (Json.obj (serializeObj sub))
              = some (Value.obj false (deserializeObj (serializeObj sub))) from rfl)
            hkS hndS]
          rw [hrtr, ih sub hsub hc.2]

theorem keyFresh_append {κ β : Type} [DecidableEq κ] {q : κ} {l1 l2 : List (κ × β)} :
    keyFresh q (l1 ++ l2) = true ↔ keyFresh q l1 = true ∧ keyFresh q l2 = true := by
  simp [keyFresh]

theorem recursiveSerialize_skip_entry {α : Type} {k : String} {g : Option (Value α)}
    (hskip : ∀ (acc : List (String × Json α)) (rest : List (String × Option (Value α))),
      recursiveSerialize acc ((k, g) :: rest) = recursiveSerialize acc rest)
    (pre post : List (String × Option (Value α))) :
    ∀ acc : List (String × Json α),
    recursiveSerialize acc (pre ++ (k, g) :: post) = recursiveSerialize acc (pre ++ post) := by
  induction pre with
  | nil => intro acc; exact hskip acc post
  | cons e rest ih =>
    obtain ⟨k', g'⟩ := e
    intro acc
    rcases g' with _ | v
    · simpa [recursiveSerialize] using ih acc
    · cases v with
      | undefined => simpa [recursiveSerialize] using ih acc
      | null => simpa [recursiveSerialize] using ih (alistInsert acc k' .null)
      | bool b => simpa [recursiveSerialize] using ih (alistInsert acc k' (.bool b))
      | num n => simpa [recursiveSerialize] using ih (alistInsert acc k' (.num n))
      | str s => simpa [recursiveSerialize] using ih (alistInsert acc k' (.str s))
      | obj c sub =>
        cases c
        · simpa [recursiveSerialize]
            using ih (alistInsert acc k' (.obj (serializeObj sub)))
        · simpa [recursiveSerialize] using ih acc

theorem serializeObj_skip_none {α : Type} (k : String)
    (pre post : List (String × Option (Value α))) :
    serializeObj (pre ++ (k, none) :: post) = serializeObj (pre ++ post) := by
  rw [serializeObj, serializeObj]
  exact recursiveSerialize_skip_entry (fun acc rest => by simp [recursiveSerialize])
    pre post []

theorem serializeObj_skip_undefined {α : Type} (k : String)
    (pre post : List (String × Option (Value α))) :
    serializeObj (pre ++ (k, some Value.undefined) :: post) = serializeObj (pre ++ post) := by
  rw [serializeObj, serializeObj]
  exact recursiveSerialize_skip_entry (fun acc rest => by simp [recursiveSerialize])
    pre post []

theorem serializeObj_skip_callable {α : Type} (k : String)
    (sub : List (String × Option (Value α)))
    (pre post : List (String × Option (Value α))) :
    serializeObj (pre ++ (k, some (Value.obj true sub)) :: post)
      = serializeObj (pre ++ post) := by
  rw [serializeObj, serializeObj]
  exact recursiveSerialize_skip_entry (fun acc rest => by simp [recursiveSerialize])
    pre post []

theorem recursiveDeserialize_skip_arr {α : Type} (k : String) (es : List (Json α))
    (pre post : List (String × Json α)) :
    ∀ object : List (String × Option (Value α)),
    recursiveDeserialize object (pre ++ (k, Json.arr es) :: post)
      = recursiveDeserialize object (pre ++ post) := by
  induction pre with
  | nil => intro object; simp [recursiveDeserialize]
  | cons e rest ih =>
    obtain ⟨k', j⟩ := e
    intro object
    cases j with
    | null => simpa [recursiveDeserialize] using ih (alistInsert object k' (some .null))
    | short s =>
      simpa [recursiveDeserialize] using ih (alistInsert object k' (some (.str s)))
    | str s =>
      simpa [recursiveDeserialize] using ih (alistInsert object k' (some (.str s)))
    | num n =>
      simpa [recursiveDeserialize] using ih (alistInsert object k' (some (.num n)))
    | bool b =>
      simpa [recursiveDeserialize] using ih (alistInsert object k' (some (.bool b)))
    | obj o =>
      simpa [recursiveDeserialize]
        using ih (alistInsert object k' (some (.obj false (deserializeObj o))))
    | arr es' => simpa [recursiveDeserialize] using ih object

theorem deserializeObj_skip_arr {α : Type} (k : String) (es : List (Json α))
    (pre post : List (String × Json α)) :
    deserializeObj (pre ++ (k, Json.arr es) :: post) = deserializeObj (pre ++ post) := by
  rw [deserializeObj, deserializeObj]
  exact recursiveDeserialize_skip_arr k es pre post []

/-- C1: for every value tree built only from Null, Bool, Number, String,
and nested objects of these (no callables, no undefined values, no
arrays, every property read succeeding, own keys distinct), decoding the
document produced by encoding the tree yields a tree structurally equal
to the original: `recursive_deserialize` after `recursive_serialize` is
the identity on such trees. -/
theorem c1_roundtrip {α : Type} (props : List (String × Option (Value α)))
    (h : plainProps props = true) :
    deserializeObj (serializeObj props) = props :=
  roundtrip_aux (sizeOf props + 1) props (Nat.lt_succ_self _) h

def c1Input : List (String × Option (Value Int)) :=
  [("volume", some (.num 7)),
   ("prefs", some (.obj false
     [("muted", some (.bool false)), ("skin", some (.str "dark")),
      ("last", some .null)])),
   ("label", some (.str "hi"))]

theorem c1_roundtrip_witness :
    plainProps c1Input = true ∧ deserializeObj (serializeObj c1Input) = c1Input := by
  have h : plainProps c1Input = true := by
    simp [c1Input, plainProps, plainVal, keyFresh]
  exact ⟨h, c1_roundtrip c1Input h⟩

/-- C3: a key whose value is a callable object is never written into the
document: encoding skips the entry (the output equals the encoding with
the entry dropped), and when the key names no other sibling the produced
document has the key entirely absent.  The statement quantifies over the
property list of the object holding the callable, so it applies at every
nesting depth: the encoder reaches each nested object by running
`serializeObj` on that object's own property list. -/
theorem c3_skip_callable {α : Type} (k : String)
    (sub pre post : List (String × Option (Value α)))
    (hpre : keyFresh k pre = true) (hpost : keyFresh k post = true) :
    serializeObj (pre ++ (k, some (Value.obj true sub)) :: post)
      = serializeObj (pre ++ post)
    ∧ alistLookup (serializeObj (pre ++ (k, some (Value.obj true sub)) :: post)) k
      = none := by
  have heq := serializeObj_skip_callable k sub pre post
  refine ⟨heq, ?_⟩
  rw [heq]
  exact alistLookup_of_keyFresh
    (keyFresh_serializeObj (keyFresh_append.mpr ⟨hpre, hpost⟩))

theorem c3_skip_callable_witness :
    keyFresh "f" ([("a", some (.num 1))] : List (String × Option (Value Int))) = true
    ∧ keyFresh "f" ([("b", some (.bool true))] : List (String × Option (Value Int))) = true
    ∧ serializeObj ([("a", some (.num 1))]
        ++ ("f", some (Value.obj true [("x", some (.num 2))]))
          :: [("b", some (.bool true))])
      = serializeObj (([("a", some (.num 1))] : List (String × Option (Value Int)))
          ++ [("b", some (.bool true))])
    ∧ alistLookup (serializeObj ([("a", some (.num (1 : Int)))]
        ++ ("f", some (Value.obj true [("x", some (.num 2))]))
          :: [("b", some (.bool true))])) "f" = none := by
  have h1 : keyFresh "f" ([("a", some (.num 1))] : List (String × Option (Value Int)))
      = true := by simp [keyFresh]
  have h2 : keyFresh "f" ([("b", some (.bool true))] : List (String × Option (Value Int)))
      = true := by simp [keyFresh]
  have h := c3_skip_callable "f" [("x", some (.num 2))] [("a", some (.num (1 : Int)))]
    [("b", some (.bool true))] h1 h2
  exact ⟨h1, h2, h.1, h.2⟩

/-- C4: a key whose value is Undefined is entirely absent from the
produced document: encoding skips the entry, and when the key names no
other sibling the document has no entry for that key at all (no
placeholder value).  As for C3, quantifying over the property list covers
every nesting depth. -/
theorem c4_skip_undefined {α : Type} (k : String)
    (pre post : List (String × Option (Value α)))
    (hpre : keyFresh k pre = true) (hpost : keyFresh k post = true) :
    serializeObj (pre ++ (k, some Value.undefined) :: post) = serializeObj (pre ++ post)
    ∧ alistLookup (serializeObj (pre ++ (k, some Value.undefined) :: post)) k = none := by
  have heq := serializeObj_skip_undefined k pre post
  refine ⟨heq, ?_⟩
  rw [heq]
  exact alistLookup_of_keyFresh
    (keyFresh_serializeObj (keyFresh_append.mpr ⟨hpre, hpost⟩))

theorem c4_skip_undefined_witness :
    keyFresh "u" ([("a", some (.str "s"))] : List (String × Option (Value Int))) = true
    ∧ keyFresh "u" ([] : List (String × Option (Value Int))) = true
    ∧ serializeObj (([("a", some (.str "s"))] : List (String × Option (Value Int)))
        ++ ("u", some Value.undefined) :: [])
      = serializeObj (([("a", some (.str "s"))] : List (String × Option (Value Int))) ++ [])
    ∧ alistLookup (serializeObj (([("a", some (.str "s"))]
        : List (String × Option (Value Int))) ++ ("u", some Value.undefined) :: [])) "u"
      = none := by
  have h1 : keyFresh "u" ([("a", some (.str "s"))] : List (String × Option (Value Int)))
      = true := by simp [keyFresh]
  have h2 : keyFresh "u" ([] : List (String × Option (Value Int))) = true := rfl
  have h := c4_skip_undefined "u" [("a", some (.str "s"))] [] h1 h2
  exact ⟨h1, h2, h.1, h.2⟩

/-- C9: a property whose host read fails (the `if let Ok(elem)` guard of
`recursive_serialize`) is silently omitted and encoding continues with
the remaining entries: the produced document equals the one produced with
the failing entry dropped, at any position and hence at any nesting
depth. -/
theorem c9_skip_failed_read {α : Type} (k : String)
    (pre post : List (String × Option (Value α))) :
    serializeObj (pre ++ (k, none) :: post) = serializeObj (pre ++ post) :=
  serializeObj_skip_none k pre post

/-- C8: decoding a document with an array-typed value at some key defines
no property for that key and still decodes every sibling field of a
supported type: the decoded object equals the one decoded with the array
entry dropped, and when the key names no other sibling the decoded object
has no property for it.  Quantifying over the entry list covers arrays at
every nesting depth, since nested documents are decoded by running
`deserializeObj` on their own entry lists. -/
theorem c8_skip_array {α : Type} (k : String) (es : List (Json α))
    (pre post : List (String × Json α))
    (hpre : keyFresh k pre = true) (hpost : keyFresh k post = true) :
    deserializeObj (pre ++ (k, Json.arr es) :: post) = deserializeObj (pre ++ post)
    ∧ alistLookup (deserializeObj (pre ++ (k, Json.arr es) :: post)) k = none := by
  have heq := deserializeObj_skip_arr k es pre post
  refine ⟨heq, ?_⟩
  rw [heq]
  exact alistLookup_of_keyFresh
    (keyFresh_deserializeObj (keyFresh_append.mpr ⟨hpre, hpost⟩))

theorem c8_skip_array_witness :
    keyFresh "arr" ([("a", Json.num 1)] : List (String × Json Int)) = true
    ∧ keyFresh "arr" ([("b", Json.str "x")] : List (String × Json Int)) = true
    ∧ deserializeObj (([("a", Json.num 1)] : List (String × Json Int))
        ++ ("arr", Json.arr [Json.num 2]) :: [("b", Json.str "x")])
      = deserializeObj (([("a", Json.num 1)] : List (String × Json Int))
        ++ [("b", Json.str "x")])
    ∧ alistLookup (deserializeObj (([("a", Json.num 1)] : List (String × Json Int))
        ++ ("arr", Json.arr [Json.num 2]) :: [("b", Json.str "x")])) "arr" = none := by
  have h1 : keyFresh "arr" ([("a", Json.num 1)] : List (String × Json Int)) = true := by
    simp [keyFresh]
  have h2 : keyFresh "arr" ([("b", Json.str "x")] : List (String × Json Int)) = true := by
    simp [keyFresh]
  have h := c8_skip_array "arr" [Json.num 2] [("a", Json.num (1 : Int))]
    [("b", Json.str "x")] h1 h2
  exact ⟨h1, h2, h.1, h.2⟩

/-- C2: two calls to `getLocal` with the same arguments in the same
session return the identical handle: the first call leaves the returned
handle registered in the shared-object cache under the coerced name, and
the second call returns exactly the first call's handle, constructing
nothing and leaving the context unchanged. -/
theorem c2_idempotent_open {α : Type} (coerce : Value α → String)
    (parse : String → Option (Json α)) (ctx : SOContext α) (args : List (Value α)) :
    alistLookup (getLocal coerce parse ctx args).1.sharedObjects
        (coerce (firstArg args)) = some (getLocal coerce parse ctx args).2
    ∧ getLocal coerce parse (getLocal coerce parse ctx args).1 args
      = getLocal coerce parse ctx args := by
  cases hl : alistLookup ctx.sharedObjects (coerce (firstArg args)) with
  | some id =>
    constructor
    · simp [getLocal, hl]
    · simp [getLocal, hl]
  | none =>
    constructor
    · simp [getLocal, hl, alistLookup_insert_self]
    · simp [getLocal, hl, alistLookup_insert_self]

/-- C5: after `clear`, the handle's data object has zero own properties,
the backend entry for the handle's name has been removed, and the handle
is not removed from the cache: the cache is untouched and a subsequent
`getLocal` for the same name returns the same (now empty) handle without
changing the context. -/
theorem c5_clear_semantics {α : Type} (coerce : Value α → String)
    (parse : String → Option (Json α)) (ctx : SOContext α) (id : Nat) (so : SOData α)
    (hheap : alistLookup ctx.heap id = some so)
    (hcache : alistLookup ctx.sharedObjects so.name = some id)
    (hco : coerce (Value.str so.name) = so.name) :
    alistLookup (clear ctx id).heap id = some { so with data := [] }
    ∧ (clear ctx id).storage.getString so.name = none
    ∧ (clear ctx id).sharedObjects = ctx.sharedObjects
    ∧ getLocal coerce parse (clear ctx id) [Value.str so.name] = (clear ctx id, id) := by
  refine ⟨?_, ?_, ?_, ?_⟩
  · simp [clear, hheap, alistLookup_insert_self]
  · simp [clear, hheap, Backend.removeKey, Backend.getString, alistLookup_erase_self]
  · simp [clear, hheap]
  · simp [getLocal, firstArg, clear, hheap, hco, hcache]

/-- C6: when `getLocal` misses the cache and the backend holds a string
for the name that `json::parse` rejects, the call still succeeds and the
new handle is seeded with an empty data object, exactly as when the
backend holds nothing for that name (the seeding step yields the same
empty data in both cases); no error escapes. -/
theorem c6_malformed_fail_open {α : Type} (coerce : Value α → String)
    (parse : String → Option (Json α)) (ctx : SOContext α) (nm s : String)
    (hco : coerce (Value.str nm) = nm)
    (hmiss : alistLookup ctx.sharedObjects nm = none)
    (hstore : ctx.storage.getString nm = some s)
    (hbad : parse s = none) :
    getLocal coerce parse ctx [Value.str nm]
      = ({ nextId := ctx.nextId + 1,
           sharedObjects := alistInsert ctx.sharedObjects nm ctx.nextId,
           heap := alistInsert ctx.heap ctx.nextId { name := nm, data := [] },
           storage := ctx.storage }, ctx.nextId)
    ∧ seedData parse (ctx.storage.getString nm) = seedData parse none := by
  have hseed : seedData parse (ctx.storage.getString nm) = [] := by
    rw [hstore]
    simp [seedData, hbad]
  constructor
  · have := hseed
    rw [hstore] at this
    simp [getLocal, firstArg, hco, hmiss, hstore, this]
  · rw [hseed]
    rfl

/-- C7: `flush` returns exactly the backend's write-success flag as a
boolean: the call writes the dumped document under the handle's name with
a single `put_string` and its result is that call's success flag, `true`
on success and `false` on failure, never a thrown error and never a
retry. -/
theorem c7_flush_returns_backend_flag {α : Type} (dump : Json α → String)
    (ctx : SOContext α) (id : Nat) (so : SOData α)
    (hheap : alistLookup ctx.heap id = some so) :
    flush dump ctx id
      = ({ ctx with storage :=
             (ctx.storage.putString so.name (dump (Json.obj (serializeObj so.data)))).1 },
         ctx.storage.writeOk so.name (dump (Json.obj (serializeObj so.data)))) := by
  cases h : ctx.storage.writeOk so.name (dump (Json.obj (serializeObj so.data))) with
  | false => simp [flush, hheap, Backend.putString, h]
  | true => simp [flush, hheap, Backend.putString, h]

/-- C10: `getLocal` coerces its first argument to a string before any
cache lookup or backend access; with no arguments the name used for the
cache key and the backend key is the string coercion of Undefined, and on
a cache miss a handle is still created, seeded from the backend entry for
that name, and cached under that name. -/
theorem c10_default_name_undefined {α : Type} (coerce : Value α → String)
    (parse : String → Option (Json α)) (ctx : SOContext α)
    (hmiss : alistLookup ctx.sharedObjects (coerce Value.undefined) = none) :
    getLocal coerce parse ctx [] = getLocal coerce parse ctx [Value.undefined]
    ∧ getLocal coerce parse ctx []
      = ({ nextId := ctx.nextId + 1,
           sharedObjects := alistInsert ctx.sharedObjects (coerce Value.undefined) ctx.nextId,
           heap := alistInsert ctx.heap ctx.nextId
             { name := coerce Value.undefined,
               data := seedData parse (ctx.storage.getString (coerce Value.undefined)) },
           storage := ctx.storage }, ctx.nextId)
    ∧ alistLookup (getLocal coerce parse ctx []).1.sharedObjects (coerce Value.undefined)
      = some (getLocal coerce parse ctx []).2 := by
  refine ⟨rfl, ?_, ?_⟩
  · simp [getLocal, firstArg, hmiss]
  · simp [getLocal, firstArg, hmiss, alistLookup_insert_self]

def wCoerce : Value Int → String
  | .str s => s
  | _ => "undefined"

def wParse : String → Option (Json Int) := fun _ => none

def wDump : Json Int → String := fun _ => "doc"

def wSO : SOData Int :=
  { name := "prefs", data := [("volume", some (.num 7))] }

def wCtx : SOContext Int :=
  { nextId := 1,
    sharedObjects := [("prefs", 0)],
    heap := [(0, wSO)],
    storage := { entries := [("prefs", "volume 7")], writeOk := fun _ _ => true } }

theorem c5_clear_semantics_witness :
    alistLookup wCtx.heap 0 = some wSO
    ∧ alistLookup wCtx.sharedObjects wSO.name = some 0
    ∧ wCoerce (Value.str wSO.name) = wSO.name
    ∧ (alistLookup (clear wCtx 0).heap 0 = some { wSO with data := [] }
       ∧ (clear wCtx 0).storage.getString wSO.name = none
       ∧ (clear wCtx 0).sharedObjects = wCtx.sharedObjects
       ∧ getLocal wCoerce wParse (clear wCtx 0) [Value.str wSO.name] = (clear wCtx 0, 0)) :=
  ⟨rfl, rfl, rfl, c5_clear_semantics wCoerce wParse wCtx 0 wSO rfl rfl rfl⟩

def wCtxMiss : SOContext Int :=
  { nextId := 0,
    sharedObjects := [],
    heap := [],
    storage := { entries := [("bad", "not a document")], writeOk := fun _ _ => true } }

theorem c6_malformed_fail_open_witness :
    wCoerce (Value.str "bad") = "bad"
    ∧ alistLookup wCtxMiss.sharedObjects "bad" = none
    ∧ wCtxMiss.storage.getString "bad" = some "not a document"
    ∧ wParse "not a document" = none
    ∧ (getLocal wCoerce wParse wCtxMiss [Value.str "bad"]
        = ({ nextId := wCtxMiss.nextId + 1,
             sharedObjects := alistInsert wCtxMiss.sharedObjects "bad" wCtxMiss.nextId,
             heap := alistInsert wCtxMiss.heap wCtxMiss.nextId { name := "bad", data := [] },
             storage := wCtxMiss.storage }, wCtxMiss.nextId)
       ∧ seedData wParse (wCtxMiss.storage.getString "bad") = seedData wParse none) :=
  ⟨rfl, rfl, rfl, rfl,
   c6_malformed_fail_open wCoerce wParse wCtxMiss "bad" "not a document" rfl rfl rfl rfl⟩

theorem c7_flush_returns_backend_flag_witness :
    alistLookup wCtx.heap 0 = some wSO
    ∧ flush wDump wCtx 0
      = ({ wCtx with storage :=
             (wCtx.storage.putString wSO.name (wDump (Json.obj (serializeObj wSO.data)))).1 },
         wCtx.storage.writeOk wSO.name (wDump (Json.obj (serializeObj wSO.data)))) :=
  ⟨rfl, c7_flush_returns_backend_flag wDump wCtx 0 wSO rfl⟩

theorem c10_default_name_undefined_witness :
    alistLookup wCtxMiss.sharedObjects (wCoerce Value.undefined) = none
    ∧ (getLocal wCoerce wParse wCtxMiss [] = getLocal wCoerce wParse wCtxMiss [Value.undefined]
       ∧ getLocal wCoerce wParse wCtxMiss []
         = ({ nextId := wCtxMiss.nextId + 1,
              sharedObjects := alistInsert wCtxMiss.sharedObjects (wCoerce Value.undefined)
                wCtxMiss.nextId,
              heap := alistInsert wCtxMiss.heap wCtxMiss.nextId
                { name := wCoerce Value.undefined,
                  data := seedData wParse
                    (wCtxMiss.storage.getString (wCoerce Value.undefined)) },
              storage := wCtxMiss.storage }, wCtxMiss.nextId)
       ∧ alistLookup (getLocal wCoerce wParse wCtxMiss []).1.sharedObjects
           (wCoerce Value.undefined) = some (getLocal wCoerce wParse wCtxMiss []).2) :=
  ⟨rfl, c10_default_name_undefined wCoerce wParse wCtxMiss rfl⟩

end SharedObjectSpec
